import Mathlib

/-!
Shallow embedding of the MineMe synchronization core
(src/backend/services/lead_sync_service.py, src/backend/services/sync_service.py,
src/backend/models/lead.py, src/backend/models/sync_log.py,
src/backend/models/salesforce_record.py, src/backend/models/base.py).

Modelling conventions:
* Timestamps are integers; one unit is one minute, so the Python
  `timedelta(minutes=5)` buffer is the integer `5`, and each
  `datetime.utcnow()` reading inside one engine pass advances a
  monotone clock held in the engine state by one unit.
* The relational store is a list of rows; `save()` on a freshly
  constructed row appends it and raises on a violation of the UNIQUE
  constraint on `sf_id` (models/lead.py line 10); `save()` on a row
  obtained from a query commits the mutation in place.
* The collaborators are parameters: the remote source's fetches are
  `Except String (List SfData)` values (an `error` models the call
  raising), the ISO-8601 datetime parser `datetime.fromisoformat` is an
  abstract `String → Option Int`, and store-level write failures are
  injected through a set `failIds` of identifiers whose `save()` raises
  (modelling per-record store failures).
* Python truthiness of strings is modelled explicitly: the empty string
  is falsy, which matters for `if not sf_id` and the `if sf_data.get(k):`
  guards around date parsing.
-/

/-- Environment of collaborator behaviour injected into the engine:
the abstract datetime parser and the set of identifiers whose store
write (`save()`) raises. -/
structure DbEnv where
  parse : String → Option Int
  failIds : List String

/-- A fetched remote field mapping, as consumed by the sync loops.
`none` models an absent key; `some ""` an empty value. -/
structure SfData where
  id : Option String
  name : Option String
  title : Option String
  email : Option String
  phone : Option String
  company : Option String
  status : Option String
  leadSource : Option String
  lastActivityDate : Option String
  lastModifiedDate : Option String
deriving Repr, DecidableEq

/-- A row of the `leads` table (src/backend/models/lead.py). -/
structure Lead where
  sf_id : String
  name : Option String
  title : Option String
  email : Option String
  phone : Option String
  company : Option String
  status : Option String
  lead_source : Option String
  last_activity_date : Option Int
  sf_last_modified_date : Option Int
  is_deleted : Bool
deriving Repr, DecidableEq

/-- A row of the `sync_logs` table (src/backend/models/sync_log.py). -/
structure SyncLog where
  id : Nat
  object_type : String
  sync_type : String
  status : String
  start_time : Int
  end_time : Option Int
  records_processed : Nat
  records_created : Nat
  records_updated : Nat
  records_deleted : Nat
  error_message : Option String
deriving Repr, DecidableEq

/-- The result dictionary returned by a sync pass. -/
structure SyncCounts where
  processed : Nat
  created : Nat
  updated : Nat
  deleted : Nat
deriving Repr, DecidableEq

/-- Replace the first element satisfying `p` by its image under `f`
(models committing a mutation of the row returned by a query). -/
def updateFirst (p : α → Bool) (f : α → α) : List α → List α
  | [] => []
  | a :: as => if p a then f a :: as else a :: updateFirst p f as

/-- Lead.get_by_sf_id (lead.py lines 44-47): `filter_by(sf_id=sf_id,
is_deleted=False).first()` — soft-deleted rows are invisible here. -/
def Lead.get_by_sf_id (store : List Lead) (sfId : String) : Option Lead :=
  store.find? (fun l => l.sf_id == sfId && !l.is_deleted)

/-- A freshly constructed `Lead(sf_id=sf_id)`: all fields at their
column defaults (lead.py lines 13-24). -/
def Lead.blank (sfId : String) : Lead :=
  { sf_id := sfId
    name := none
    title := none
    email := none
    phone := none
    company := none
    status := none
    lead_source := none
    last_activity_date := none
    sf_last_modified_date := none
    is_deleted := false }

/-- One guarded date assignment of lead.py lines 76-87:
`if sf_data.get(k): try: assign fromisoformat except: pass`.
An absent key, an empty (falsy) string, or a parse failure all keep the
previous value. -/
def parseDateField (env : DbEnv) (raw : Option String) (prev : Option Int) : Option Int :=
  match raw with
  | none => prev
  | some s =>
    if s = "" then prev
    else
      match env.parse s with
      | some t => some t
      | none => prev

/-- The field assignments of Lead.update_from_sf_data (lead.py lines
66-89), ending with `lead.is_deleted = False`. -/
def Lead.applyFields (env : DbEnv) (old : Lead) (sf : SfData) : Lead :=
  { old with
    name := sf.name
    title := sf.title
    email := sf.email
    phone := sf.phone
    company := sf.company
    status := sf.status
    lead_source := sf.leadSource
    last_activity_date := parseDateField env sf.lastActivityDate old.last_activity_date
    sf_last_modified_date := parseDateField env sf.lastModifiedDate old.sf_last_modified_date
    is_deleted := false }

/-- Outcome of one Lead.update_from_sf_data call: the Python function
returns `None` (`retNone`), returns the saved lead (`ok`), or raises
out of `save()` (`err`). -/
inductive SaveOutcome where
  | retNone
  | ok
  | err
deriving Repr, DecidableEq

/-- Lead.update_from_sf_data (lead.py lines 54-90) together with the
store effect of `save()`. A missing or empty (falsy) `Id` returns
`None` without touching the store; otherwise the row found by
`get_by_sf_id` is overwritten in place, or a fresh row is inserted —
the insert raises if any row (soft-deleted ones included) already holds
that `sf_id` (UNIQUE constraint, lead.py line 10), and any `save()`
raises when the identifier carries an injected store failure. -/
def Lead.update_from_sf_data (env : DbEnv) (store : List Lead) (sf : SfData) :
    SaveOutcome × List Lead :=
  match sf.id with
  | none => (SaveOutcome.retNone, store)
  | some sfId =>
    if sfId = "" then (SaveOutcome.retNone, store)
    else
      match Lead.get_by_sf_id store sfId with
      | some _ =>
        if sfId ∈ env.failIds then (SaveOutcome.err, store)
        else
          (SaveOutcome.ok,
            updateFirst (fun l => l.sf_id == sfId && !l.is_deleted)
              (fun l => Lead.applyFields env l sf) store)
      | none =>
        if sfId ∈ env.failIds || store.any (fun l => l.sf_id == sfId) then
          (SaveOutcome.err, store)
        else
          (SaveOutcome.ok, store ++ [Lead.applyFields env (Lead.blank sfId) sf])

/-- The per-record reconciliation loop shared by
LeadSyncService._perform_full_sync (lines 65-83) and
_perform_incremental_sync (lines 122-140): returns the created and
updated counters and the final store.  `sf_lead['Id']` raising KeyError
and `save()` raising are both caught by the per-record `except`, which
skips the record. -/
def processLeads (env : DbEnv) : List SfData → List Lead → Nat × Nat × List Lead
  | [], store => (0, 0, store)
  | sf :: rest, store =>
    match sf.id with
    | none => processLeads env rest store
    | some sfId =>
      let existing := Lead.get_by_sf_id store sfId
      let r := Lead.update_from_sf_data env store sf
      match r.1 with
      | SaveOutcome.err => processLeads env rest store
      | _ =>
        let rec' := processLeads env rest r.2
        match existing with
        | some _ => (rec'.1, rec'.2.1 + 1, rec'.2.2)
        | none => (rec'.1 + 1, rec'.2.1, rec'.2.2)

/-- LeadSyncService._perform_full_sync (lead_sync_service.py lines
51-90): fetch everything (re-raising a fetch failure), reconcile each
record, and return the result dictionary. -/
def perform_full_sync (env : DbEnv) (fetchAll : Except String (List SfData))
    (store : List Lead) : Except String (SyncCounts × List Lead) :=
  match fetchAll with
  | Except.error e => Except.error e
  | Except.ok sfLeads =>
    let r := processLeads env sfLeads store
    Except.ok
      ({ processed := sfLeads.length, created := r.1, updated := r.2.1, deleted := 0 },
        r.2.2)

/-- Bool filter of SyncLog.get_latest_successful_sync (sync_log.py
lines 43-49). -/
def SyncLog.isCompletedFor (otype : String) (l : SyncLog) : Bool :=
  l.object_type == otype && l.status == "completed"

/-- Strict "later by end_time" for the `order_by(end_time.desc())`
selection; a missing end time sorts last. -/
def SyncLog.laterByEnd (a b : SyncLog) : Bool :=
  match a.end_time, b.end_time with
  | some ta, some tb => ta > tb
  | some _, none => true
  | none, _ => false

/-- SyncLog.get_latest_successful_sync (sync_log.py lines 43-49): the
entry of the given object type with status 'completed' having the
greatest end time. -/
def get_latest_successful_sync (logs : List SyncLog) (otype : String) : Option SyncLog :=
  (logs.filter (SyncLog.isCompletedFor otype)).foldl
    (fun acc l =>
      match acc with
      | none => some l
      | some b => if SyncLog.laterByEnd l b then some l else some b) none

/-- The watermark computed by _perform_incremental_sync
(lead_sync_service.py lines 101-106): the start time of the latest
completed entry minus the fixed 5-minute buffer. -/
def leadWatermark (lastSync : SyncLog) : Int :=
  lastSync.start_time - 5

/-- LeadSyncService._perform_incremental_sync (lead_sync_service.py
lines 92-147): with no completed baseline, silently perform a full
sync; with one, fetch records modified since the watermark — and fall
back to a full sync if that fetch raises (lines 116-120) — then
reconcile exactly as the full pass does. -/
def perform_incremental_sync (env : DbEnv) (fetchAll : Except String (List SfData))
    (fetchSince : Int → Except String (List SfData)) (logs : List SyncLog)
    (store : List Lead) : Except String (SyncCounts × List Lead) :=
  match get_latest_successful_sync logs "Lead" with
  | none => perform_full_sync env fetchAll store
  | some lastSync =>
    match fetchSince (leadWatermark lastSync) with
    | Except.error _ => perform_full_sync env fetchAll store
    | Except.ok sfLeads =>
      let r := processLeads env sfLeads store
      Except.ok
        ({ processed := sfLeads.length, created := r.1, updated := r.2.1, deleted := 0 },
          r.2.2)

/-- Engine state threaded through passes: the `leads` table, the
`sync_logs` table, the next auto-assigned log id, and the model clock
read by `datetime.utcnow()`. -/
structure EngineState where
  leads : List Lead
  logs : List SyncLog
  nextId : Nat
  time : Int
deriving Repr, DecidableEq

/-- The inputs of one `sync_leads` trigger: the requested mode and the
behaviour of the two remote fetches during this pass. -/
structure PassInput where
  mode : String
  fetchAll : Except String (List SfData)
  fetchSince : Int → Except String (List SfData)

/-- Commit a mutation of the sync-log row with the given id. -/
def updateLog (logs : List SyncLog) (logId : Nat) (newLog : SyncLog) : List SyncLog :=
  logs.map (fun l => if l.id = logId then newLog else l)

/-- The Sync Log entry inserted at the start of a pass
(lead_sync_service.py lines 17-23). -/
def startedLog (mode : String) (logId : Nat) (t0 : Int) : SyncLog :=
  { id := logId
    object_type := "Lead"
    sync_type := mode
    status := "started"
    start_time := t0
    end_time := none
    records_processed := 0
    records_created := 0
    records_updated := 0
    records_deleted := 0
    error_message := none }

/-- The terminal mutation of the pass entry on success
(lead_sync_service.py lines 32-38). -/
def completedLog (log0 : SyncLog) (t1 : Int) (counts : SyncCounts) : SyncLog :=
  { log0 with
    status := "completed"
    end_time := some t1
    records_processed := counts.processed
    records_created := counts.created
    records_updated := counts.updated
    records_deleted := counts.deleted }

/-- The terminal mutation of the pass entry on failure
(lead_sync_service.py lines 45-47). -/
def failedLog (log0 : SyncLog) (t1 : Int) (e : String) : SyncLog :=
  { log0 with
    status := "failed"
    end_time := some t1
    error_message := some e }

/-- The mode dispatch of sync_leads (lead_sync_service.py lines
26-29). -/
def sync_body (env : DbEnv) (inp : PassInput) (logs : List SyncLog)
    (store : List Lead) : Except String (SyncCounts × List Lead) :=
  if inp.mode = "full" then perform_full_sync env inp.fetchAll store
  else perform_incremental_sync env inp.fetchAll inp.fetchSince logs store

/-- LeadSyncService.sync_leads (lead_sync_service.py lines 14-49): one
pass.  A 'started' log entry is inserted, the full or incremental body
runs, and the entry is mutated once to 'completed' (with the counters)
or, when the body raises, to 'failed' with the error message before the
error is re-raised. -/
def sync_leads (env : DbEnv) (inp : PassInput) (s : EngineState) :
    Except String SyncCounts × EngineState :=
  let log0 := startedLog inp.mode s.nextId s.time
  let s1 : EngineState :=
    { s with logs := s.logs ++ [log0], nextId := s.nextId + 1, time := s.time + 1 }
  match sync_body env inp s1.logs s1.leads with
  | Except.ok (counts, leads') =>
    (Except.ok counts,
      { s1 with
        leads := leads'
        time := s1.time + 1
        logs := updateLog s1.logs s.nextId (completedLog log0 s1.time counts) })
  | Except.error e =>
    (Except.error e,
      { s1 with
        time := s1.time + 1
        logs := updateLog s1.logs s.nextId (failedLog log0 s1.time e) })

/-- Run a sequence of sync passes. -/
def runPasses (env : DbEnv) : List PassInput → EngineState → EngineState
  | [], s => s
  | inp :: rest, s => runPasses env rest (sync_leads env inp s).2

/-- The state of a freshly created database (`db.create_all()`): empty
tables, clock at zero. -/
def initialState : EngineState :=
  { leads := [], logs := [], nextId := 0, time := 0 }

/-- The remote collaborator's `get_updated_records_since` (app.py): a
SOQL query `LastModifiedDate >= t` over a remote set of records paired
with their modification times. -/
def fetchSinceOfRemote (remote : List (SfData × Int)) (t : Int) :
    Except String (List SfData) :=
  Except.ok ((remote.filter (fun p => decide (t ≤ p.2))).map Prod.fst)

/-!
The generic engine variant: SyncService over SalesforceRecord
(src/backend/services/sync_service.py, src/backend/models/salesforce_record.py).
Its reconciliation loops differ from the lead engine's in three ways
relevant to the claims: `SalesforceRecord.get_by_sf_id` does not filter
out soft-deleted rows, no per-record exception is caught, and the
incremental fetch lower bound is the object's `last_sync_time` with no
5-minute buffer.
-/

/-- A raw record payload fetched for the generic engine; the `data`
column stores it wholesale. -/
structure RecData where
  id : Option String
  payload : String
deriving Repr, DecidableEq

/-- A row of the `salesforce_records` table
(src/backend/models/salesforce_record.py). -/
structure SFRecord where
  sf_id : String
  object_id : Nat
  data : RecData
  last_modified_date : Option Int
  is_deleted : Bool
deriving Repr, DecidableEq

/-- SalesforceRecord.get_by_sf_id (salesforce_record.py lines 26-29):
`filter_by(sf_id=sf_id).first()` — no `is_deleted` filter, so
soft-deleted rows are found. -/
def SFRecord.get_by_sf_id (store : List SFRecord) (sfId : String) : Option SFRecord :=
  store.find? (fun r => r.sf_id == sfId)

/-- The record loop of SyncService._perform_full_sync (sync_service.py
lines 112-134) and _perform_incremental_sync (lines 175-197): upsert
each fetched record, stamping `last_modified_date` with the wall clock
and clearing `is_deleted`.  No exception is caught here: a missing 'Id'
key or a failing `save()` aborts the whole loop. -/
def sfProcessRecords (env : DbEnv) (objId : Nat) (now : Int) :
    List RecData → List SFRecord → Except String (Nat × Nat × List SFRecord)
  | [], store => Except.ok (0, 0, store)
  | rec :: rest, store =>
    match rec.id with
    | none => Except.error "KeyError: Id"
    | some sfId =>
      if sfId ∈ env.failIds then Except.error ("save failed: " ++ sfId)
      else
        match SFRecord.get_by_sf_id store sfId with
        | some _ =>
          let store' :=
            updateFirst (fun r => r.sf_id == sfId)
              (fun r => { r with data := rec, last_modified_date := some now, is_deleted := false })
              store
          match sfProcessRecords env objId now rest store' with
          | Except.error e => Except.error e
          | Except.ok res => Except.ok (res.1, res.2.1 + 1, res.2.2)
        | none =>
          let newRec : SFRecord :=
            { sf_id := sfId
              object_id := objId
              data := rec
              last_modified_date := some now
              is_deleted := false }
          match sfProcessRecords env objId now rest (store ++ [newRec]) with
          | Except.error e => Except.error e
          | Except.ok res => Except.ok (res.1 + 1, res.2.1, res.2.2)

/-- The deletion loop of SyncService._perform_incremental_sync
(sync_service.py lines 199-212): mark each locally present identifier
from the deleted-records query as soft-deleted. -/
def sfProcessDeleted (env : DbEnv) :
    List String → List SFRecord → Except String (Nat × List SFRecord)
  | [], store => Except.ok (0, store)
  | sfId :: rest, store =>
    match SFRecord.get_by_sf_id store sfId with
    | none => sfProcessDeleted env rest store
    | some _ =>
      if sfId ∈ env.failIds then Except.error ("save failed: " ++ sfId)
      else
        let store' :=
          updateFirst (fun r => r.sf_id == sfId) (fun r => { r with is_deleted := true }) store
        match sfProcessDeleted env rest store' with
        | Except.error e => Except.error e
        | Except.ok res => Except.ok (res.1 + 1, res.2)

/-- SyncService._perform_full_sync (sync_service.py lines 96-146): the
injected SalesforceService's `get_all_records` returns a plain list
(it swallows its own errors), after which the uncaught record loop
runs. -/
def sf_perform_full_sync (env : DbEnv) (objId : Nat) (now : Int)
    (fetchAllRecs : List RecData) (store : List SFRecord) :
    Except String (SyncCounts × List SFRecord) :=
  match sfProcessRecords env objId now fetchAllRecs store with
  | Except.error e => Except.error e
  | Except.ok res =>
    Except.ok
      ({ processed := fetchAllRecs.length, created := res.1, updated := res.2.1, deleted := 0 },
        res.2.2)

/-- SyncService._perform_incremental_sync (sync_service.py lines
148-225).  With a previous successful sync and a recorded
`obj.last_sync_time`, the updated-records fetch is bounded below by
`obj.last_sync_time` itself — no 5-minute buffer is subtracted and the
start time of the completed Sync Log entry is not consulted — and the
deleted-records query covers `[obj.last_sync_time, now)`; otherwise the
pass degrades to a full sync. -/
def sf_perform_incremental_sync (env : DbEnv) (objId : Nat) (now : Int)
    (lastSync : Option SyncLog) (objLastSyncTime : Option Int)
    (remoteUpdatedSince : Int → List RecData)
    (remoteDeletedBetween : Int → Int → List String)
    (fetchAllRecs : List RecData) (store : List SFRecord) :
    Except String (SyncCounts × List SFRecord) :=
  match lastSync, objLastSyncTime with
  | some _, some t =>
    let updatedRecs := remoteUpdatedSince t
    let deletedIds := remoteDeletedBetween t now
    match sfProcessRecords env objId now updatedRecs store with
    | Except.error e => Except.error e
    | Except.ok res =>
      match sfProcessDeleted env deletedIds res.2.2 with
      | Except.error e => Except.error e
      | Except.ok dres =>
        Except.ok
          ({ processed := updatedRecs.length + deletedIds.length
             created := res.1
             updated := res.2.1
             deleted := dres.1 },
            dres.2)
  | _, _ => sf_perform_full_sync env objId now fetchAllRecs store

/-- The remote collaborator's `get_updated_records`
(src/backend/services/salesforce_service.py lines 83-114): a SOQL query
`LastModifiedDate >= t` over a remote set of records paired with their
modification times. -/
def sfRemoteUpdatedSince (remote : List (RecData × Int)) (t : Int) : List RecData :=
  (remote.filter (fun p => decide (t ≤ p.2))).map Prod.fst

/-- A store all of whose rows are active (not soft-deleted).  Every
store reachable through the lead engine satisfies this, since the lead
engine never sets `is_deleted`. -/
def activeStore (store : List Lead) : Prop :=
  ∀ l ∈ store, l.is_deleted = false

/-- A record is dropped from the created/updated counters of a lead
pass over an active store exactly when its 'Id' key is missing (the
KeyError is caught and the record skipped) or its save raises an
injected store failure.  An empty 'Id' is counted even though nothing
is written. -/
def leadFailsS (env : DbEnv) (sf : SfData) : Bool :=
  match sf.id with
  | none => true
  | some x => if x = "" then false else decide (x ∈ env.failIds)

/-- The identifiers carried by a fetched batch. -/
def recIds (recs : List SfData) : List String :=
  recs.filterMap SfData.id

/-- The Sync Log invariant claimed for every entry once a pass is over:
a terminal status was reached, the end time is set (so it is set iff
the status is 'completed' or 'failed'), and an error message is present
iff the status is 'failed'. -/
def SyncLog.terminalInv (l : SyncLog) : Bool :=
  (l.status == "completed" || l.status == "failed")
  && l.end_time.isSome
  && (l.error_message.isSome == (l.status == "failed"))

/-- Engine-state invariant carried across passes: every log entry is
terminal and log ids stay below the id counter. -/
def stateLogInv (s : EngineState) : Prop :=
  ∀ l ∈ s.logs, l.id < s.nextId ∧ SyncLog.terminalInv l = true

/-- A collaborator environment with a working store and a parser that
accepts nothing. -/
def envNoFail : DbEnv :=
  { parse := fun _ => none, failIds := [] }

/-- A collaborator environment in which the store write for identifier
L4 raises. -/
def envFailL4 : DbEnv :=
  { parse := fun _ => none, failIds := ["L4"] }

/-- A fetched lead record carrying an identifier and a name. -/
def sampleSf (i : Option String) : SfData :=
  { id := i
    name := some "Ada"
    title := none
    email := none
    phone := none
    company := none
    status := none
    leadSource := none
    lastActivityDate := none
    lastModifiedDate := none }

/-- A completed incremental baseline entry with start time 100 and end
time 101. -/
def baselineLog : SyncLog :=
  { id := 0
    object_type := "Lead"
    sync_type := "incremental"
    status := "completed"
    start_time := 100
    end_time := some 101
    records_processed := 0
    records_created := 0
    records_updated := 0
    records_deleted := 0
    error_message := none }

/-- An engine state holding only the completed baseline entry. -/
def baselineState : EngineState :=
  { leads := [], logs := [baselineLog], nextId := 1, time := 102 }

/-- A soft-deleted local lead row carrying identifier L1. -/
def deletedL1 : Lead :=
  { sf_id := "L1"
    name := none
    title := none
    email := none
    phone := none
    company := none
    status := none
    lead_source := none
    last_activity_date := none
    sf_last_modified_date := none
    is_deleted := true }

/-- A generic-engine record store holding a soft-deleted row for
identifier R1. -/
def deletedR1 : SFRecord :=
  { sf_id := "R1"
    object_id := 7
    data := { id := some "R1", payload := "old" }
    last_modified_date := some 10
    is_deleted := true }

theorem mem_updateFirst {p : α → Bool} {f : α → α} {l : List α} {b : α}
    (hb : b ∈ updateFirst p f l) : b ∈ l ∨ ∃ a, a ∈ l ∧ b = f a := by
  induction l with
  | nil => simp [updateFirst] at hb
  | cons a as ih =>
    cases hpa : p a with
    | true =>
      simp only [updateFirst, hpa, if_true] at hb
      rcases List.mem_cons.mp hb with h | h
      · exact Or.inr ⟨a, List.mem_cons_self a as, h⟩
      · exact Or.inl (List.mem_cons_of_mem a h)
    | false =>
      simp only [updateFirst, hpa, if_false] at hb
      rcases List.mem_cons.mp hb with h | h
      · exact Or.inl (h ▸ List.mem_cons_self a as)
      · rcases ih h with h' | ⟨c, hc, hbc⟩
        · exact Or.inl (List.mem_cons_of_mem a h')
        · exact Or.inr ⟨c, List.mem_cons_of_mem a hc, hbc⟩

theorem updateFirst_map (p : α → Bool) (f : α → α) (g : α → β)
    (h : ∀ a, p a = true → g (f a) = g a) (l : List α) :
    (updateFirst p f l).map g = l.map g := by
  induction l with
  | nil => rfl
  | cons a as ih =>
    cases hpa : p a with
    | true => simp [updateFirst, hpa, h a hpa]
    | false => simp [updateFirst, hpa, ih]

theorem mem_updateFirst_of_find? {p : α → Bool} {f : α → α} {l : List α} {a : α}
    (h : l.find? p = some a) : f a ∈ updateFirst p f l := by
  induction l with
  | nil => simp at h
  | cons b bs ih =>
    cases hpb : p b with
    | true =>
      rw [List.find?_cons_of_pos _ hpb] at h
      cases h
      simp [updateFirst, hpb]
    | false =>
      rw [List.find?_cons_of_neg _ (by simp [hpb])] at h
      simp [updateFirst, hpb, ih h]

theorem mem_updateFirst_of_mem_of_neg {p : α → Bool} {f : α → α} {l : List α} {a : α}
    (ha : a ∈ l) (hpa : p a = false) : a ∈ updateFirst p f l := by
  induction l with
  | nil => simp at ha
  | cons b bs ih =>
    cases hpb : p b with
    | true =>
      have hab : a ≠ b := fun h => by rw [h, hpb] at hpa; cases hpa
      rcases List.mem_cons.mp ha with h | h
      · exact absurd h hab
      · simp [updateFirst, hpb, h]
    | false =>
      rcases List.mem_cons.mp ha with h | h
      · simp [updateFirst, hpb, h]
      · simp [updateFirst, hpb, ih h]

theorem updateFirst_eq_self {p : α → Bool} {f : α → α} {l : List α} {a : α}
    (h : l.find? p = some a) (hfa : f a = a) : updateFirst p f l = l := by
  induction l with
  | nil => rfl
  | cons b bs ih =>
    cases hpb : p b with
    | true =>
      rw [List.find?_cons_of_pos _ hpb] at h
      cases h
      simp [updateFirst, hpb, hfa]
    | false =>
      rw [List.find?_cons_of_neg _ (by simp [hpb])] at h
      simp [updateFirst, hpb, ih h]

theorem find?_updateFirst_other {p q : α → Bool} {f : α → α} {l : List α}
    (h : ∀ a, p a = true → q a = false ∧ q (f a) = false) :
    (updateFirst p f l).find? q = l.find? q := by
  induction l with
  | nil => rfl
  | cons b bs ih =>
    cases hpb : p b with
    | true =>
      have hqb := h b hpb
      simp only [updateFirst, hpb, if_true]
      rw [List.find?_cons_of_neg _ (by simp [hqb.2]),
        List.find?_cons_of_neg _ (by simp [hqb.1])]
    | false =>
      have hl : updateFirst p f (b :: bs) = b :: updateFirst p f bs := by
        simp [updateFirst, hpb]
      rw [hl]
      cases hqb : q b with
      | true => rw [List.find?_cons_of_pos _ hqb, List.find?_cons_of_pos _ hqb]
      | false =>
        rw [List.find?_cons_of_neg _ (by simp [hqb]),
          List.find?_cons_of_neg _ (by simp [hqb]), ih]

theorem any_updateFirst {p q : α → Bool} {f : α → α} {l : List α}
    (h : ∀ a, p a = true → q (f a) = q a) :
    (updateFirst p f l).any q = l.any q := by
  induction l with
  | nil => rfl
  | cons b bs ih =>
    cases hpb : p b with
    | true => simp [updateFirst, hpb, h b hpb]
    | false => simp [updateFirst, hpb, ih]

theorem applyFields_sf_id (env : DbEnv) (l : Lead) (sf : SfData) :
    (Lead.applyFields env l sf).sf_id = l.sf_id := rfl

theorem applyFields_not_deleted (env : DbEnv) (l : Lead) (sf : SfData) :
    (Lead.applyFields env l sf).is_deleted = false := rfl

theorem parseDateField_idem (env : DbEnv) (raw : Option String) (prev : Option Int) :
    parseDateField env raw (parseDateField env raw prev) = parseDateField env raw prev := by
  cases raw with
  | none => rfl
  | some s =>
    by_cases hs : s = ""
    · simp [parseDateField, hs]
    · cases hp : env.parse s <;> simp [parseDateField, hs, hp]

theorem applyFields_idem (env : DbEnv) (l : Lead) (sf : SfData) :
    Lead.applyFields env (Lead.applyFields env l sf) sf = Lead.applyFields env l sf := by
  simp [Lead.applyFields, parseDateField_idem]

theorem get_by_sf_id_mem {store : List Lead} {x : String} {l : Lead}
    (h : Lead.get_by_sf_id store x = some l) :
    l ∈ store ∧ l.sf_id = x ∧ l.is_deleted = false := by
  have hm := List.mem_of_find?_eq_some h
  have hp := List.find?_some h
  simp only [Bool.and_eq_true, beq_iff_eq, Bool.not_eq_true'] at hp
  exact ⟨hm, hp.1, hp.2⟩

theorem active_none_any_false {store : List Lead} {x : String}
    (hact : activeStore store) (h : Lead.get_by_sf_id store x = none) :
    store.any (fun l => l.sf_id == x) = false := by
  have h' := List.find?_eq_none.mp h
  rw [List.any_eq_false]
  intro l hl
  have hprop := h' l hl
  simp only [Bool.and_eq_true, beq_iff_eq, Bool.not_eq_true', not_and] at hprop
  simp only [beq_iff_eq]
  intro hx
  exact absurd (hact l hl) (hprop hx)

theorem not_mem_map_of_any_false {store : List Lead} {x : String}
    (h : store.any (fun l => l.sf_id == x) = false) : x ∉ store.map Lead.sf_id := by
  intro hx
  obtain ⟨l, hl, hlx⟩ := List.mem_map.mp hx
  have := List.any_eq_false.mp h l hl
  simp [hlx] at this

/-- The three possible store effects of one Lead.update_from_sf_data
call: no change (returned None or raised), an in-place overwrite of the
first active row carrying the identifier, or an append of a fresh row
when no row at all carried it. -/
theorem update_store_cases (env : DbEnv) (store : List Lead) (sf : SfData) :
    (Lead.update_from_sf_data env store sf).2 = store ∨
    (∃ x old, sf.id = some x ∧ Lead.get_by_sf_id store x = some old ∧
      (Lead.update_from_sf_data env store sf).2 =
        updateFirst (fun l => l.sf_id == x && !l.is_deleted)
          (fun l => Lead.applyFields env l sf) store) ∨
    (∃ x, sf.id = some x ∧ store.any (fun l => l.sf_id == x) = false ∧
      (Lead.update_from_sf_data env store sf).2 =
        store ++ [Lead.applyFields env (Lead.blank x) sf]) := by
  cases hid : sf.id with
  | none => left; simp [Lead.update_from_sf_data, hid]
  | some x =>
    by_cases hx : x = ""
    · left; simp [Lead.update_from_sf_data, hid, hx]
    · cases hfind : Lead.get_by_sf_id store x with
      | some old =>
        by_cases hmem : x ∈ env.failIds
        · left; simp [Lead.update_from_sf_data, hid, hx, hfind, hmem]
        · right; left
          exact ⟨x, old, rfl, hfind,
            by simp [Lead.update_from_sf_data, hid, hx, hfind, hmem]⟩
      | none =>
        by_cases hmem : x ∈ env.failIds
        · left; simp [Lead.update_from_sf_data, hid, hx, hfind, hmem]
        · cases hany : store.any (fun l => l.sf_id == x) with
          | true => left; simp [Lead.update_from_sf_data, hid, hx, hfind, hmem, hany]
          | false =>
            right; right
            exact ⟨x, rfl, hany,
              by simp [Lead.update_from_sf_data, hid, hx, hfind, hmem, hany]⟩

/-- The four possible results of one Lead.update_from_sf_data call. -/
theorem update_res_cases (env : DbEnv) (store : List Lead) (sf : SfData) :
    Lead.update_from_sf_data env store sf = (SaveOutcome.retNone, store) ∨
    Lead.update_from_sf_data env store sf = (SaveOutcome.err, store) ∨
    (∃ x old, sf.id = some x ∧ Lead.get_by_sf_id store x = some old ∧
      Lead.update_from_sf_data env store sf =
        (SaveOutcome.ok,
          updateFirst (fun l => l.sf_id == x && !l.is_deleted)
            (fun l => Lead.applyFields env l sf) store)) ∨
    (∃ x, sf.id = some x ∧ Lead.get_by_sf_id store x = none ∧
      store.any (fun l => l.sf_id == x) = false ∧
      Lead.update_from_sf_data env store sf =
        (SaveOutcome.ok, store ++ [Lead.applyFields env (Lead.blank x) sf])) := by
  cases hid : sf.id with
  | none => left; simp [Lead.update_from_sf_data, hid]
  | some x =>
    by_cases hx : x = ""
    · left; simp [Lead.update_from_sf_data, hid, hx]
    · cases hfind : Lead.get_by_sf_id store x with
      | some old =>
        by_cases hmem : x ∈ env.failIds
        · right; left; simp [Lead.update_from_sf_data, hid, hx, hfind, hmem]
        · right; right; left
          exact ⟨x, old, rfl, hfind,
            by simp [Lead.update_from_sf_data, hid, hx, hfind, hmem]⟩
      | none =>
        by_cases hmem : x ∈ env.failIds
        · right; left; simp [Lead.update_from_sf_data, hid, hx, hfind, hmem]
        · cases hany : store.any (fun l => l.sf_id == x) with
          | true => right; left; simp [Lead.update_from_sf_data, hid, hx, hfind, hmem, hany]
          | false =>
            right; right; right
            exact ⟨x, rfl, hfind, hany,
              by simp [Lead.update_from_sf_data, hid, hx, hfind, hmem, hany]⟩

/-- A raised save leaves the store untouched. -/
theorem update_err_store (env : DbEnv) (store : List Lead) (sf : SfData)
    (h : (Lead.update_from_sf_data env store sf).1 = SaveOutcome.err) :
    (Lead.update_from_sf_data env store sf).2 = store := by
  rcases update_res_cases env store sf with hu | hu | ⟨x, old, _, _, hu⟩ | ⟨x, _, _, _, hu⟩ <;>
    rw [hu] at h ⊢ <;> first | rfl | cases h

/-- One upsert keeps every row active. -/
theorem update_active (env : DbEnv) (store : List Lead) (sf : SfData)
    (hact : activeStore store) :
    activeStore (Lead.update_from_sf_data env store sf).2 := by
  rcases update_store_cases env store sf with h | ⟨x, old, _, _, h⟩ | ⟨x, _, _, h⟩
  · rw [h]; exact hact
  · rw [h]; intro b hb
    rcases mem_updateFirst hb with hb' | ⟨a, _, rfl⟩
    · exact hact b hb'
    · rfl
  · rw [h]; intro b hb
    rcases List.mem_append.mp hb with hb' | hb'
    · exact hact b hb'
    · rw [List.mem_singleton.mp hb']; rfl

/-- One upsert never introduces a duplicate identifier. -/
theorem update_ids_nodup (env : DbEnv) (store : List Lead) (sf : SfData)
    (hnd : (store.map Lead.sf_id).Nodup) :
    ((Lead.update_from_sf_data env store sf).2.map Lead.sf_id).Nodup := by
  rcases update_store_cases env store sf with h | ⟨x, old, _, _, h⟩ | ⟨x, _, hany, h⟩
  · rw [h]; exact hnd
  · rw [h, updateFirst_map (fun l => l.sf_id == x && !l.is_deleted)
      (fun l => Lead.applyFields env l sf) Lead.sf_id (fun a _ => rfl)]
    exact hnd
  · rw [h, List.map_append, List.map_singleton]
    have hx : x ∉ store.map Lead.sf_id := not_mem_map_of_any_false hany
    have hsf : (Lead.applyFields env (Lead.blank x) sf).sf_id = x := rfl
    rw [hsf]
    refine List.nodup_append.mpr ⟨hnd, List.nodup_singleton _, ?_⟩
    intro a ha hb
    rw [List.mem_singleton] at hb
    exact hx (hb ▸ ha)

/-- The final store of a pass over `sf :: rest` is the final store of
the pass over `rest` started from the store after upserting `sf`
(in every branch — skip, raise, overwrite, insert — the recursion
continues from `(update_from_sf_data).2`). -/
theorem processLeads_tail_store (env : DbEnv) (sf : SfData) (rest : List SfData)
    (store : List Lead) :
    (processLeads env (sf :: rest) store).2.2 =
      (processLeads env rest (Lead.update_from_sf_data env store sf).2).2.2 := by
  cases hid : sf.id with
  | none =>
    have hupd : Lead.update_from_sf_data env store sf = (SaveOutcome.retNone, store) := by
      simp [Lead.update_from_sf_data, hid]
    rw [hupd]
    simp [processLeads, hid]
  | some x =>
    cases hoc : (Lead.update_from_sf_data env store sf).1 with
    | err =>
      rw [update_err_store env store sf hoc]
      simp [processLeads, hid, hoc]
    | retNone =>
      simp only [processLeads, hid, hoc]
      cases hfind : Lead.get_by_sf_id store x <;> simp [hfind]
    | ok =>
      simp only [processLeads, hid, hoc]
      cases hfind : Lead.get_by_sf_id store x <;> simp [hfind]

/-- A pass keeps every row active. -/
theorem processLeads_active (env : DbEnv) (recs : List SfData) :
    ∀ store, activeStore store → activeStore (processLeads env recs store).2.2 := by
  induction recs with
  | nil => intro store h; simpa [processLeads] using h
  | cons sf rest ih =>
    intro store hact
    rw [processLeads_tail_store]
    exact ih _ (update_active env store sf hact)

/-- A pass never introduces a duplicate identifier. -/
theorem processLeads_ids_nodup (env : DbEnv) (recs : List SfData) :
    ∀ store, (store.map Lead.sf_id).Nodup →
      ((processLeads env recs store).2.2.map Lead.sf_id).Nodup := by
  induction recs with
  | nil => intro store h; simpa [processLeads] using h
  | cons sf rest ih =>
    intro store hnd
    rw [processLeads_tail_store]
    exact ih _ (update_ids_nodup env store sf hnd)

theorem processLeads_cons_skip (env : DbEnv) (sf : SfData) (rest : List SfData)
    (store : List Lead) (hid : sf.id = none) :
    processLeads env (sf :: rest) store = processLeads env rest store := by
  simp [processLeads, hid]

theorem processLeads_cons_err (env : DbEnv) (sf : SfData) (rest : List SfData)
    (store : List Lead) (x : String) (hid : sf.id = some x)
    (herr : (Lead.update_from_sf_data env store sf).1 = SaveOutcome.err) :
    processLeads env (sf :: rest) store = processLeads env rest store := by
  simp [processLeads, hid, herr]

theorem processLeads_cons_found (env : DbEnv) (sf : SfData) (rest : List SfData)
    (store : List Lead) (x : String) (old : Lead) (hid : sf.id = some x)
    (hfind : Lead.get_by_sf_id store x = some old)
    (hoc : (Lead.update_from_sf_data env store sf).1 ≠ SaveOutcome.err) :
    processLeads env (sf :: rest) store =
      ((processLeads env rest (Lead.update_from_sf_data env store sf).2).1,
        (processLeads env rest (Lead.update_from_sf_data env store sf).2).2.1 + 1,
        (processLeads env rest (Lead.update_from_sf_data env store sf).2).2.2) := by
  cases hoc2 : (Lead.update_from_sf_data env store sf).1 with
  | err => exact absurd hoc2 hoc
  | retNone => simp [processLeads, hid, hoc2, hfind]
  | ok => simp [processLeads, hid, hoc2, hfind]

theorem processLeads_cons_notfound (env : DbEnv) (sf : SfData) (rest : List SfData)
    (store : List Lead) (x : String) (hid : sf.id = some x)
    (hfind : Lead.get_by_sf_id store x = none)
    (hoc : (Lead.update_from_sf_data env store sf).1 ≠ SaveOutcome.err) :
    processLeads env (sf :: rest) store =
      ((processLeads env rest (Lead.update_from_sf_data env store sf).2).1 + 1,
        (processLeads env rest (Lead.update_from_sf_data env store sf).2).2.1,
        (processLeads env rest (Lead.update_from_sf_data env store sf).2).2.2) := by
  cases hoc2 : (Lead.update_from_sf_data env store sf).1 with
  | err => exact absurd hoc2 hoc
  | retNone => simp [processLeads, hid, hoc2, hfind]
  | ok => simp [processLeads, hid, hoc2, hfind]

/-- Counter bookkeeping of a lead pass over an active store: every
fetched record is either counted in `created`/`updated` or statically
fails (missing 'Id', or an injected store failure). -/
theorem processLeads_count (env : DbEnv) (recs : List SfData) :
    ∀ store, activeStore store →
      (processLeads env recs store).1 + (processLeads env recs store).2.1
        + recs.countP (leadFailsS env) = recs.length := by
  induction recs with
  | nil => intro store _; simp [processLeads]
  | cons sf rest ih =>
    intro store hact
    cases hid : sf.id with
    | none =>
      have hfail : leadFailsS env sf = true := by simp [leadFailsS, hid]
      rw [processLeads_cons_skip env sf rest store hid]
      have hr := ih store hact
      simp [List.countP_cons, hfail]
      omega
    | some x =>
      by_cases hx : x = ""
      · have hfail : leadFailsS env sf = false := by simp [leadFailsS, hid, hx]
        have hupd : Lead.update_from_sf_data env store sf = (SaveOutcome.retNone, store) := by
          simp [Lead.update_from_sf_data, hid, hx]
        have hoc : (Lead.update_from_sf_data env store sf).1 ≠ SaveOutcome.err := by
          simp [hupd]
        have hupd2 : (Lead.update_from_sf_data env store sf).2 = store := by rw [hupd]
        have hr := ih store hact
        cases hfind : Lead.get_by_sf_id store x with
        | some old =>
          rw [processLeads_cons_found env sf rest store x old hid hfind hoc, hupd2]
          simp [List.countP_cons, hfail]
          omega
        | none =>
          rw [processLeads_cons_notfound env sf rest store x hid hfind hoc, hupd2]
          simp [List.countP_cons, hfail]
          omega
      · by_cases hmem : x ∈ env.failIds
        · have hfail : leadFailsS env sf = true := by simp [leadFailsS, hid, hx, hmem]
          have herr : (Lead.update_from_sf_data env store sf).1 = SaveOutcome.err := by
            cases hfind : Lead.get_by_sf_id store x <;>
              simp [Lead.update_from_sf_data, hid, hx, hfind, hmem]
          rw [processLeads_cons_err env sf rest store x hid herr]
          have hr := ih store hact
          simp [List.countP_cons, hfail]
          omega
        · have hfail : leadFailsS env sf = false := by simp [leadFailsS, hid, hx, hmem]
          have hact2 := update_active env store sf hact
          have hr := ih _ hact2
          cases hfind : Lead.get_by_sf_id store x with
          | some old =>
            have hoc : (Lead.update_from_sf_data env store sf).1 ≠ SaveOutcome.err := by
              simp [Lead.update_from_sf_data, hid, hx, hfind, hmem]
            rw [processLeads_cons_found env sf rest store x old hid hfind hoc]
            simp [List.countP_cons, hfail]
            omega
          | none =>
            have hany := active_none_any_false hact hfind
            have hoc : (Lead.update_from_sf_data env store sf).1 ≠ SaveOutcome.err := by
              simp [Lead.update_from_sf_data, hid, hx, hfind, hmem, hany]
            rw [processLeads_cons_notfound env sf rest store x hid hfind hoc]
            simp [List.countP_cons, hfail]
            omega

/-- Over a store with pairwise distinct identifiers, an active row is
exactly what `get_by_sf_id` returns for its identifier. -/
theorem find?_of_mem_nodup {store : List Lead} {row : Lead} {x : String}
    (hnd : (store.map Lead.sf_id).Nodup) (hmem : row ∈ store) (hx : row.sf_id = x)
    (hdel : row.is_deleted = false) :
    Lead.get_by_sf_id store x = some row := by
  induction store with
  | nil => cases hmem
  | cons b bs ih =>
    rw [List.map_cons, List.nodup_cons] at hnd
    rcases List.mem_cons.mp hmem with rfl | hmem'
    · unfold Lead.get_by_sf_id
      rw [List.find?_cons_of_pos]
      simp [hx, hdel]
    · have hbx : b.sf_id ≠ x := by
        intro h
        exact hnd.1 (h ▸ hx ▸ List.mem_map_of_mem Lead.sf_id hmem')
      unfold Lead.get_by_sf_id
      rw [List.find?_cons_of_neg _ (by simp [hbx])]
      exact ih hnd.2 hmem'

/-- After a successful upsert of a well-identified record over an
active store, an active row with its identifier is present. -/
theorem update_sets_row (env : DbEnv) (store : List Lead) (sf : SfData) (x : String)
    (hid : sf.id = some x) (hx : x ≠ "") (hmem : x ∉ env.failIds)
    (hact : activeStore store) :
    ∃ row ∈ (Lead.update_from_sf_data env store sf).2,
      row.sf_id = x ∧ row.is_deleted = false := by
  cases hfind : Lead.get_by_sf_id store x with
  | some old =>
    have hupd : Lead.update_from_sf_data env store sf =
        (SaveOutcome.ok,
          updateFirst (fun l => l.sf_id == x && !l.is_deleted)
            (fun l => Lead.applyFields env l sf) store) := by
      simp [Lead.update_from_sf_data, hid, hx, hfind, hmem]
    rw [hupd]
    refine ⟨Lead.applyFields env old sf, mem_updateFirst_of_find? hfind, ?_, rfl⟩
    rw [applyFields_sf_id]
    exact (get_by_sf_id_mem hfind).2.1
  | none =>
    have hany := active_none_any_false hact hfind
    have hupd : Lead.update_from_sf_data env store sf =
        (SaveOutcome.ok, store ++ [Lead.applyFields env (Lead.blank x) sf]) := by
      simp [Lead.update_from_sf_data, hid, hx, hfind, hmem, hany]
    rw [hupd]
    exact ⟨Lead.applyFields env (Lead.blank x) sf,
      List.mem_append_right _ (List.mem_singleton.mpr rfl), rfl, rfl⟩

/-- Any single upsert preserves the presence of an active row for a
given identifier. -/
theorem update_keeps_row (env : DbEnv) (store : List Lead) (sf : SfData) (x : String)
    (hrow : ∃ row ∈ store, row.sf_id = x ∧ row.is_deleted = false) :
    ∃ row ∈ (Lead.update_from_sf_data env store sf).2,
      row.sf_id = x ∧ row.is_deleted = false := by
  obtain ⟨row, hmem, hx, hdel⟩ := hrow
  rcases update_res_cases env store sf with hu | hu | ⟨y, old, _, hfindy, hu⟩ |
    ⟨y, _, _, _, hu⟩
  · rw [hu]; exact ⟨row, hmem, hx, hdel⟩
  · rw [hu]; exact ⟨row, hmem, hx, hdel⟩
  · rw [hu]
    by_cases hpy : (row.sf_id == y && !row.is_deleted) = true
    · refine ⟨Lead.applyFields env old sf, mem_updateFirst_of_find? hfindy, ?_, rfl⟩
      have h1 := (get_by_sf_id_mem hfindy).2.1
      have h2 : row.sf_id = y := by
        simp only [Bool.and_eq_true, beq_iff_eq] at hpy
        exact hpy.1
      rw [applyFields_sf_id, h1, ← h2, hx]
    · exact ⟨row, mem_updateFirst_of_mem_of_neg hmem (Bool.eq_false_iff.mpr hpy), hx, hdel⟩
  · rw [hu]
    exact ⟨row, List.mem_append_left _ hmem, hx, hdel⟩

/-- A whole pass preserves the presence of an active row for a given
identifier. -/
theorem processLeads_keeps_row (env : DbEnv) (recs : List SfData) (x : String) :
    ∀ store, (∃ row ∈ store, row.sf_id = x ∧ row.is_deleted = false) →
      ∃ row ∈ (processLeads env recs store).2.2,
        row.sf_id = x ∧ row.is_deleted = false := by
  induction recs with
  | nil => intro store h; simpa [processLeads] using h
  | cons sf rest ih =>
    intro store h
    rw [processLeads_tail_store]
    exact ih _ (update_keeps_row env store sf x h)

/-- A record fetched with a good identifier over an active store ends
the pass with an active row under that identifier (the upsert during
the pass succeeds and later records never delete it). -/
theorem processLeads_presence (env : DbEnv) (recs : List SfData) :
    ∀ store, activeStore store → ∀ sf ∈ recs, ∀ x, sf.id = some x → x ≠ "" →
      x ∉ env.failIds →
      ∃ row ∈ (processLeads env recs store).2.2,
        row.sf_id = x ∧ row.is_deleted = false := by
  induction recs with
  | nil => intro store _ sf h; cases h
  | cons sf0 rest ih =>
    intro store hact sf hsf x hid hx hmem
    rcases List.mem_cons.mp hsf with rfl | hsf'
    · rw [processLeads_tail_store]
      exact processLeads_keeps_row env rest x _
        (update_sets_row env store sf x hid hx hmem hact)
    · rw [processLeads_tail_store]
      exact ih _ (update_active env store sf0 hact) sf hsf' x hid hx hmem

/-- A single upsert of a record whose identifier differs from a row's
identifier leaves that row in place, unchanged. -/
theorem update_frame_mem (env : DbEnv) (store : List Lead) (sf : SfData) {row : Lead}
    (hrow : row ∈ store) (hid : ∀ y, sf.id = some y → y ≠ row.sf_id) :
    row ∈ (Lead.update_from_sf_data env store sf).2 := by
  rcases update_res_cases env store sf with hu | hu | ⟨y, old, hidy, _, hu⟩ |
    ⟨y, _, _, _, hu⟩
  · rw [hu]; exact hrow
  · rw [hu]; exact hrow
  · rw [hu]
    apply mem_updateFirst_of_mem_of_neg hrow
    have hne : row.sf_id ≠ y := fun h => (hid y hidy) h.symm
    simp [hne]
  · rw [hu]
    exact List.mem_append_left _ hrow

/-- A pass whose batch never mentions a row's identifier leaves that
row in place, unchanged. -/
theorem processLeads_frame_mem (env : DbEnv) (recs : List SfData) :
    ∀ store (row : Lead), row ∈ store →
      (∀ sf ∈ recs, ∀ y, sf.id = some y → y ≠ row.sf_id) →
      row ∈ (processLeads env recs store).2.2 := by
  induction recs with
  | nil => intro store row h _; simpa [processLeads] using h
  | cons sf0 rest ih =>
    intro store row hrow h
    rw [processLeads_tail_store]
    exact ih _ row
      (update_frame_mem env store sf0 hrow (h sf0 (List.mem_cons_self sf0 rest)))
      (fun sf hsf => h sf (List.mem_cons_of_mem sf0 hsf))

theorem recIds_cons_some {sf : SfData} {rest : List SfData} {x : String}
    (hid : sf.id = some x) : recIds (sf :: rest) = x :: recIds rest := by
  simp [recIds, List.filterMap_cons, hid]

theorem recIds_cons_none {sf : SfData} {rest : List SfData} (hid : sf.id = none) :
    recIds (sf :: rest) = recIds rest := by
  simp [recIds, List.filterMap_cons, hid]

theorem mem_recIds {recs : List SfData} {sf : SfData} {y : String}
    (hsf : sf ∈ recs) (hid : sf.id = some y) : y ∈ recIds recs :=
  List.mem_filterMap.mpr ⟨sf, hsf, hid⟩

/-- A pass all of whose records already have their fixed-point row in a
duplicate-free store changes nothing and counts every record as
updated. -/
theorem processLeads_fixpoint (env : DbEnv) (recs : List SfData) :
    ∀ store, (store.map Lead.sf_id).Nodup →
      (∀ sf ∈ recs, ∃ x, sf.id = some x ∧ x ≠ "" ∧ x ∉ env.failIds ∧
        ∃ row ∈ store, row.sf_id = x ∧ Lead.applyFields env row sf = row) →
      processLeads env recs store = (0, recs.length, store) := by
  induction recs with
  | nil => intro store _ _; simp [processLeads]
  | cons sf rest ih =>
    intro store hnd hfix
    obtain ⟨x, hid, hx, hmem, row, hrmem, hrx, hrfix⟩ :=
      hfix sf (List.mem_cons_self sf rest)
    have hrdel : row.is_deleted = false := by rw [← hrfix]; rfl
    have hfind : Lead.get_by_sf_id store x = some row :=
      find?_of_mem_nodup hnd hrmem hrx hrdel
    have hupd : Lead.update_from_sf_data env store sf = (SaveOutcome.ok, store) := by
      have h1 : Lead.update_from_sf_data env store sf =
          (SaveOutcome.ok,
            updateFirst (fun l => l.sf_id == x && !l.is_deleted)
              (fun l => Lead.applyFields env l sf) store) := by
        simp [Lead.update_from_sf_data, hid, hx, hfind, hmem]
      rw [h1, updateFirst_eq_self hfind hrfix]
    have hoc : (Lead.update_from_sf_data env store sf).1 ≠ SaveOutcome.err := by
      simp [hupd]
    have htl : (Lead.update_from_sf_data env store sf).2 = store := by rw [hupd]
    rw [processLeads_cons_found env sf rest store x row hid hfind hoc, htl,
      ih store hnd (fun sf' h => hfix sf' (List.mem_cons_of_mem sf h))]
    simp

/-- After one pass over a batch of pairwise-distinct, well-identified
records, every record's fixed-point row is in the store: re-applying
the record's fields to that row changes nothing. -/
theorem processLeads_fix_establish (env : DbEnv) (recs : List SfData) :
    ∀ store, activeStore store → (recIds recs).Nodup →
      ∀ sf ∈ recs, ∀ x, sf.id = some x → x ≠ "" → x ∉ env.failIds →
        ∃ row ∈ (processLeads env recs store).2.2,
          row.sf_id = x ∧ Lead.applyFields env row sf = row := by
  induction recs with
  | nil => intro store _ _ sf h; cases h
  | cons sf0 rest ih =>
    intro store hact hnd sf hsf x hid hx hmem
    rcases List.mem_cons.mp hsf with rfl | hsf'
    · rw [processLeads_tail_store]
      have hrow0 : ∃ w, Lead.applyFields env w sf ∈ (Lead.update_from_sf_data env store sf).2 ∧
          (Lead.applyFields env w sf).sf_id = x := by
        cases hfind : Lead.get_by_sf_id store x with
        | some old =>
          have hupd : Lead.update_from_sf_data env store sf =
              (SaveOutcome.ok,
                updateFirst (fun l => l.sf_id == x && !l.is_deleted)
                  (fun l => Lead.applyFields env l sf) store) := by
            simp [Lead.update_from_sf_data, hid, hx, hfind, hmem]
          rw [hupd]
          exact ⟨old, mem_updateFirst_of_find? hfind,
            by rw [applyFields_sf_id]; exact (get_by_sf_id_mem hfind).2.1⟩
        | none =>
          have hany := active_none_any_false hact hfind
          have hupd : Lead.update_from_sf_data env store sf =
              (SaveOutcome.ok, store ++ [Lead.applyFields env (Lead.blank x) sf]) := by
            simp [Lead.update_from_sf_data, hid, hx, hfind, hmem, hany]
          rw [hupd]
          exact ⟨Lead.blank x, List.mem_append_right _ (List.mem_singleton.mpr rfl), rfl⟩
      obtain ⟨w, hwmem, hwid⟩ := hrow0
      have hnotin : x ∉ recIds rest := by
        rw [recIds_cons_some hid] at hnd
        exact (List.nodup_cons.mp hnd).1
      have hframe : Lead.applyFields env w sf ∈
          (processLeads env rest (Lead.update_from_sf_data env store sf).2).2.2 := by
        apply processLeads_frame_mem env rest _ _ hwmem
        intro sf' hsf' y hidy hyx
        exact hnotin ((hyx.trans hwid) ▸ mem_recIds hsf' hidy)
      exact ⟨Lead.applyFields env w sf, hframe, hwid, applyFields_idem env w sf⟩
    · rw [processLeads_tail_store]
      have hnd' : (recIds rest).Nodup := by
        cases hid0 : sf0.id with
        | none => rw [recIds_cons_none hid0] at hnd; exact hnd
        | some y => rw [recIds_cons_some hid0] at hnd; exact (List.nodup_cons.mp hnd).2
      exact ih _ (update_active env store sf0 hact) hnd' sf hsf' x hid hx hmem

/-- A successful full pass body is a `processLeads` run over the
fetched batch. -/
theorem perform_full_store {env : DbEnv} {fetchAll : Except String (List SfData)}
    {store : List Lead} {c : SyncCounts} {store' : List Lead}
    (h : perform_full_sync env fetchAll store = Except.ok (c, store')) :
    ∃ recs, store' = (processLeads env recs store).2.2 := by
  cases fetchAll with
  | error e => simp [perform_full_sync] at h
  | ok recs =>
    simp only [perform_full_sync, Except.ok.injEq, Prod.mk.injEq] at h
    exact ⟨recs, h.2.symm⟩

/-- A successful incremental pass body is a `processLeads` run over
some fetched batch (the incremental batch, or the full batch after a
fallback). -/
theorem perform_incremental_store {env : DbEnv} {fetchAll : Except String (List SfData)}
    {fetchSince : Int → Except String (List SfData)} {logs : List SyncLog}
    {store : List Lead} {c : SyncCounts} {store' : List Lead}
    (h : perform_incremental_sync env fetchAll fetchSince logs store = Except.ok (c, store')) :
    ∃ recs, store' = (processLeads env recs store).2.2 := by
  unfold perform_incremental_sync at h
  cases hlast : get_latest_successful_sync logs "Lead" with
  | none =>
    simp only [hlast] at h
    exact perform_full_store h
  | some lastSync =>
    simp only [hlast] at h
    cases hfs : fetchSince (leadWatermark lastSync) with
    | error e =>
      simp only [hfs] at h
      exact perform_full_store h
    | ok sfLeads =>
      simp only [hfs, Except.ok.injEq, Prod.mk.injEq] at h
      exact ⟨sfLeads, h.2.symm⟩

/-- A successful pass body is a `processLeads` run over some fetched
batch. -/
theorem sync_body_store {env : DbEnv} {inp : PassInput} {logs : List SyncLog}
    {store : List Lead} {c : SyncCounts} {store' : List Lead}
    (h : sync_body env inp logs store = Except.ok (c, store')) :
    ∃ recs, store' = (processLeads env recs store).2.2 := by
  unfold sync_body at h
  by_cases hm : inp.mode = "full"
  · rw [if_pos hm] at h; exact perform_full_store h
  · rw [if_neg hm] at h; exact perform_incremental_store h

/-- One pass preserves identifier uniqueness of the lead store. -/
theorem sync_leads_nodup (env : DbEnv) (inp : PassInput) (s : EngineState)
    (hnd : (s.leads.map Lead.sf_id).Nodup) :
    ((sync_leads env inp s).2.leads.map Lead.sf_id).Nodup := by
  unfold sync_leads
  cases hres : sync_body env inp
      (s.logs ++ [startedLog inp.mode s.nextId s.time]) s.leads with
  | ok p =>
    obtain ⟨c, store'⟩ := p
    obtain ⟨recs, hrecs⟩ := sync_body_store hres
    simp only [hres]
    rw [hrecs]
    exact processLeads_ids_nodup env recs s.leads hnd
  | error e =>
    simp only [hres]
    exact hnd

/-- Any run of passes preserves identifier uniqueness. -/
theorem runPasses_nodup (env : DbEnv) (inps : List PassInput) :
    ∀ s : EngineState, (s.leads.map Lead.sf_id).Nodup →
      ((runPasses env inps s).leads.map Lead.sf_id).Nodup := by
  induction inps with
  | nil => intro s h; simpa [runPasses] using h
  | cons inp rest ih =>
    intro s h
    simp only [runPasses]
    exact ih _ (sync_leads_nodup env inp s h)

theorem mem_updateLog {logs : List SyncLog} {logId : Nat} {newLog l : SyncLog}
    (h : l ∈ updateLog logs logId newLog) :
    l = newLog ∨ ∃ orig ∈ logs, orig.id ≠ logId ∧ l = orig := by
  obtain ⟨orig, horig, heq⟩ := List.mem_map.mp h
  by_cases hid : orig.id = logId
  · left; rw [← heq]; simp [hid]
  · right; exact ⟨orig, horig, hid, by rw [← heq]; simp [hid]⟩

theorem terminalInv_completedLog (mode : String) (logId : Nat) (t0 t1 : Int)
    (counts : SyncCounts) :
    SyncLog.terminalInv (completedLog (startedLog mode logId t0) t1 counts) = true := rfl

theorem terminalInv_failedLog (mode : String) (logId : Nat) (t0 t1 : Int) (e : String) :
    SyncLog.terminalInv (failedLog (startedLog mode logId t0) t1 e) = true := rfl

/-- One pass keeps the Sync Log invariant: the 'started' entry it
inserts is the one it mutates to a terminal status (its id is fresh),
and no other entry is touched. -/
theorem sync_leads_log_inv (env : DbEnv) (inp : PassInput) (s : EngineState)
    (hinv : stateLogInv s) : stateLogInv (sync_leads env inp s).2 := by
  unfold sync_leads
  cases hres : sync_body env inp
      (s.logs ++ [startedLog inp.mode s.nextId s.time]) s.leads with
  | ok p =>
    obtain ⟨c, store'⟩ := p
    simp only [hres, stateLogInv]
    intro l hl
    rcases mem_updateLog hl with rfl | ⟨orig, horig, hne, rfl⟩
    · exact ⟨Nat.lt_succ_self _, terminalInv_completedLog inp.mode s.nextId s.time (s.time + 1) c⟩
    · rcases List.mem_append.mp horig with h1 | h2
      · obtain ⟨hlt, hterm⟩ := hinv l h1
        exact ⟨Nat.lt_succ_of_lt hlt, hterm⟩
      · rw [List.mem_singleton.mp h2] at hne
        exact absurd rfl hne
  | error e =>
    simp only [hres, stateLogInv]
    intro l hl
    rcases mem_updateLog hl with rfl | ⟨orig, horig, hne, rfl⟩
    · exact ⟨Nat.lt_succ_self _, terminalInv_failedLog inp.mode s.nextId s.time (s.time + 1) e⟩
    · rcases List.mem_append.mp horig with h1 | h2
      · obtain ⟨hlt, hterm⟩ := hinv l h1
        exact ⟨Nat.lt_succ_of_lt hlt, hterm⟩
      · rw [List.mem_singleton.mp h2] at hne
        exact absurd rfl hne

theorem runPasses_log_inv (env : DbEnv) (inps : List PassInput) :
    ∀ s : EngineState, stateLogInv s → stateLogInv (runPasses env inps s) := by
  induction inps with
  | nil => intro s h; simpa [runPasses] using h
  | cons inp rest ih =>
    intro s h
    simp only [runPasses]
    exact ih _ (sync_leads_log_inv env inp s h)

/-- Appending an entry that is not 'completed' does not change the
latest-successful-sync lookup. -/
theorem latest_append_non_completed (logs : List SyncLog) (l0 : SyncLog) (otype : String)
    (h : l0.status ≠ "completed") :
    get_latest_successful_sync (logs ++ [l0]) otype = get_latest_successful_sync logs otype := by
  unfold get_latest_successful_sync
  rw [List.filter_append]
  have hnil : List.filter (SyncLog.isCompletedFor otype) [l0] = [] := by
    simp [SyncLog.isCompletedFor, h]
  rw [hnil, List.append_nil]

/-- Fully evaluated shape of a full-mode pass whose fetch succeeds. -/
theorem sync_leads_full_ok (env : DbEnv) (recs : List SfData)
    (fS : Int → Except String (List SfData)) (s : EngineState) :
    (sync_leads env ⟨"full", Except.ok recs, fS⟩ s).1 =
      Except.ok
        { processed := recs.length
          created := (processLeads env recs s.leads).1
          updated := (processLeads env recs s.leads).2.1
          deleted := 0 } ∧
    (sync_leads env ⟨"full", Except.ok recs, fS⟩ s).2.leads =
      (processLeads env recs s.leads).2.2 ∧
    (sync_leads env ⟨"full", Except.ok recs, fS⟩ s).2.logs =
      updateLog (s.logs ++ [startedLog "full" s.nextId s.time]) s.nextId
        (completedLog (startedLog "full" s.nextId s.time) (s.time + 1)
          { processed := recs.length
            created := (processLeads env recs s.leads).1
            updated := (processLeads env recs s.leads).2.1
            deleted := 0 }) := by
  refine ⟨rfl, rfl, rfl⟩

/-- Fully evaluated shape of a full-mode pass whose fetch raises. -/
theorem sync_leads_full_err (env : DbEnv) (e : String)
    (fS : Int → Except String (List SfData)) (s : EngineState) :
    (sync_leads env ⟨"full", Except.error e, fS⟩ s).1 = Except.error e ∧
    (sync_leads env ⟨"full", Except.error e, fS⟩ s).2.leads = s.leads ∧
    (sync_leads env ⟨"full", Except.error e, fS⟩ s).2.logs =
      updateLog (s.logs ++ [startedLog "full" s.nextId s.time]) s.nextId
        (failedLog (startedLog "full" s.nextId s.time) (s.time + 1) e) := by
  refine ⟨rfl, rfl, rfl⟩

/-- Evaluated shape of an incremental pass over a concrete remote set
when a completed baseline exists: the engine fetches exactly the
records modified at or after the watermark and reconciles them. -/
theorem sync_leads_inc_ok (env : DbEnv) (fA : Except String (List SfData))
    (remote : List (SfData × Int)) (s : EngineState) (ls : SyncLog)
    (hlast : get_latest_successful_sync s.logs "Lead" = some ls) :
    (sync_leads env ⟨"incremental", fA, fetchSinceOfRemote remote⟩ s).2.leads =
      (processLeads env
        ((remote.filter (fun p => decide (leadWatermark ls ≤ p.2))).map Prod.fst)
        s.leads).2.2 ∧
    ∃ cnt, (sync_leads env ⟨"incremental", fA, fetchSinceOfRemote remote⟩ s).1 =
      Except.ok cnt := by
  have hl2 : get_latest_successful_sync
      (s.logs ++ [startedLog "incremental" s.nextId s.time]) "Lead" = some ls := by
    rw [latest_append_non_completed _ _ _ (by simp [startedLog])]
    exact hlast
  have hbody : sync_body env ⟨"incremental", fA, fetchSinceOfRemote remote⟩
      (s.logs ++ [startedLog "incremental" s.nextId s.time]) s.leads =
      Except.ok
        ({ processed :=
            ((remote.filter (fun p => decide (leadWatermark ls ≤ p.2))).map Prod.fst).length
           created :=
            (processLeads env
              ((remote.filter (fun p => decide (leadWatermark ls ≤ p.2))).map Prod.fst)
              s.leads).1
           updated :=
            (processLeads env
              ((remote.filter (fun p => decide (leadWatermark ls ≤ p.2))).map Prod.fst)
              s.leads).2.1
           deleted := 0 },
          (processLeads env
            ((remote.filter (fun p => decide (leadWatermark ls ≤ p.2))).map Prod.fst)
            s.leads).2.2) := by
    unfold sync_body
    rw [if_neg (show ¬("incremental" : String) = "full" by decide)]
    unfold perform_incremental_sync
    rw [hl2]
    rfl
  unfold sync_leads
  simp only [hbody]
  exact ⟨trivial, _, rfl⟩

/-- Claim C1 (amended): for every full-mode pass in which the remote
fetch raises an unrecoverable error, sync_leads sets the pass's Sync
Log entry to status 'failed' with end time set and the error message
recorded, and re-raises the failure to the caller.  (As stated over
every pass the claim fails: in incremental mode the lead engine
swallows the fetch error and falls back to a full fetch instead —
see the counterexample.) -/
theorem c1_amended_full_fetch_error_fails_and_raises (env : DbEnv) (e : String)
    (fS : Int → Except String (List SfData)) (s : EngineState) :
    (sync_leads env ⟨"full", Except.error e, fS⟩ s).1 = Except.error e ∧
    ∃ l ∈ (sync_leads env ⟨"full", Except.error e, fS⟩ s).2.logs,
      l.id = s.nextId ∧ l.status = "failed" ∧ l.end_time = some (s.time + 1) ∧
      l.error_message = some e := by
  obtain ⟨h1, _, h3⟩ := sync_leads_full_err env e fS s
  refine ⟨h1, failedLog (startedLog "full" s.nextId s.time) (s.time + 1) e, ?_,
    rfl, rfl, rfl, rfl⟩
  rw [h3]
  unfold updateLog
  exact List.mem_map.mpr ⟨startedLog "full" s.nextId s.time,
    List.mem_append_right _ (List.mem_singleton.mpr rfl), by simp [startedLog]⟩

/-- Claim C1 (counterexample): an incremental pass whose remote fetch
raises, run from a state with a completed baseline, is NOT marked
'failed' and does NOT propagate the failure — the engine silently
falls back to a full fetch, completes the pass with status
'completed', and returns a normal result. -/
theorem c1_counterexample_incremental_fetch_error_completes :
    (sync_leads envNoFail ⟨"incremental", Except.ok [], fun _ => Except.error "boom"⟩
        baselineState).1 =
      Except.ok { processed := 0, created := 0, updated := 0, deleted := 0 } ∧
    ∃ l ∈ (sync_leads envNoFail ⟨"incremental", Except.ok [], fun _ => Except.error "boom"⟩
        baselineState).2.logs,
      l.id = 1 ∧ l.status = "completed" ∧ l.error_message = none := by
  refine ⟨rfl, ?_⟩
  decide

/-- Claim C7: after any sequence of passes from a fresh database, every
Sync Log entry has reached exactly one terminal status ('completed' or
'failed'), its end time is set (hence end time is set iff the status is
terminal), and an error message is present iff the status is
'failed'. -/
theorem c7_sync_log_terminal_invariant (env : DbEnv) (inps : List PassInput) :
    ((runPasses env inps initialState).logs.all SyncLog.terminalInv) = true := by
  have hinv := runPasses_log_inv env inps initialState
    (by intro l hl; exact absurd hl (List.not_mem_nil l))
  rw [List.all_eq_true]
  intro l hl
  exact (hinv l hl).2

/-- Claim C8: after any sequence of passes from a fresh database, the
lead store has at most one row per remote identifier. -/
theorem c8_no_duplicate_sf_ids (env : DbEnv) (inps : List PassInput) :
    ((runPasses env inps initialState).leads.map Lead.sf_id).Nodup :=
  runPasses_nodup env inps initialState (by simp [initialState])

/-- Claim C10: an input field mapping without a remote identifier (no
'Id' key, or an empty one) makes Lead.update_from_sf_data return None
and leaves the store completely unchanged. -/
theorem c10_missing_id_returns_none (env : DbEnv) (store : List Lead) (sf : SfData)
    (h : sf.id = none ∨ sf.id = some "") :
    Lead.update_from_sf_data env store sf = (SaveOutcome.retNone, store) := by
  rcases h with h | h <;> simp [Lead.update_from_sf_data, h]

/-- Claim C10 witness: a concrete mapping with no 'Id' key over a
nonempty store. -/
theorem c10_missing_id_witness :
    ((sampleSf none).id = none ∨ (sampleSf none).id = some "") ∧
    Lead.update_from_sf_data envNoFail [deletedL1] (sampleSf none) =
      (SaveOutcome.retNone, [deletedL1]) :=
  ⟨Or.inl rfl,
    c10_missing_id_returns_none envNoFail [deletedL1] (sampleSf none) (Or.inl rfl)⟩

/-- Claim C9: a fetched record whose remote last-modified timestamp
fails to parse is still upserted — the found row is overwritten in
place — with every other mutable field taken from the record, while the
stored last-modified timestamp keeps its previous value. -/
theorem c9_unparsable_timestamp_keeps_previous (env : DbEnv) (store : List Lead)
    (sf : SfData) (x : String) (old : Lead) (badStr : String)
    (hid : sf.id = some x) (hx : x ≠ "") (hfind : Lead.get_by_sf_id store x = some old)
    (hfail : x ∉ env.failIds) (hstr : sf.lastModifiedDate = some badStr)
    (hbad : env.parse badStr = none) :
    Lead.update_from_sf_data env store sf =
      (SaveOutcome.ok,
        updateFirst (fun l => l.sf_id == x && !l.is_deleted)
          (fun l => Lead.applyFields env l sf) store) ∧
    Lead.applyFields env old sf ∈ (Lead.update_from_sf_data env store sf).2 ∧
    (Lead.applyFields env old sf).sf_last_modified_date = old.sf_last_modified_date ∧
    (Lead.applyFields env old sf).name = sf.name ∧
    (Lead.applyFields env old sf).title = sf.title ∧
    (Lead.applyFields env old sf).email = sf.email ∧
    (Lead.applyFields env old sf).phone = sf.phone ∧
    (Lead.applyFields env old sf).company = sf.company ∧
    (Lead.applyFields env old sf).status = sf.status ∧
    (Lead.applyFields env old sf).lead_source = sf.leadSource := by
  have h1 : Lead.update_from_sf_data env store sf =
      (SaveOutcome.ok,
        updateFirst (fun l => l.sf_id == x && !l.is_deleted)
          (fun l => Lead.applyFields env l sf) store) := by
    simp [Lead.update_from_sf_data, hid, hx, hfind, hfail]
  refine ⟨h1, ?_, ?_, rfl, rfl, rfl, rfl, rfl, rfl, rfl⟩
  · rw [h1]; exact mem_updateFirst_of_find? hfind
  · show parseDateField env sf.lastModifiedDate old.sf_last_modified_date =
      old.sf_last_modified_date
    rw [hstr]
    by_cases hbs : badStr = ""
    · simp [parseDateField, hbs]
    · simp [parseDateField, hbs, hbad]

/-- Claim C9 witness: the store holds an active row for L1 with stored
timestamp 42; the fetched record carries the unparsable timestamp
string "not-a-date"; the upsert succeeds, keeps 42, and overwrites the
name. -/
theorem c9_unparsable_timestamp_witness :
    ({ sampleSf (some "L1") with lastModifiedDate := some "not-a-date" } : SfData).id =
        some "L1" ∧
    Lead.get_by_sf_id [{ deletedL1 with is_deleted := false, sf_last_modified_date := some 42 }]
        "L1" = some { deletedL1 with is_deleted := false, sf_last_modified_date := some 42 } ∧
    envNoFail.parse "not-a-date" = none ∧
    (Lead.applyFields envNoFail
        { deletedL1 with is_deleted := false, sf_last_modified_date := some 42 }
        { sampleSf (some "L1") with lastModifiedDate := some "not-a-date" }).sf_last_modified_date =
      ({ deletedL1 with is_deleted := false, sf_last_modified_date := some 42 } : Lead).sf_last_modified_date ∧
    (Lead.applyFields envNoFail
        { deletedL1 with is_deleted := false, sf_last_modified_date := some 42 }
        { sampleSf (some "L1") with lastModifiedDate := some "not-a-date" }).name = some "Ada" := by
  have h := c9_unparsable_timestamp_keeps_previous envNoFail
    [{ deletedL1 with is_deleted := false, sf_last_modified_date := some 42 }]
    { sampleSf (some "L1") with lastModifiedDate := some "not-a-date" }
    "L1" { deletedL1 with is_deleted := false, sf_last_modified_date := some 42 }
    "not-a-date" rfl (by decide) rfl (by decide) rfl rfl
  exact ⟨rfl, rfl, rfl, h.2.2.1, h.2.2.2.1⟩

/-- Claim C4 (counterexample): in the lead engine, a local row already
marked is_deleted=true whose identifier reappears in a fetched batch is
NOT resurrected: `Lead.get_by_sf_id` filters out soft-deleted rows, so
the upsert tries to insert a duplicate, the UNIQUE constraint on sf_id
makes the save raise, the per-record handler skips the record, and the
row stays deleted. -/
theorem c4_counterexample_lead_deleted_row_not_resurrected :
    Lead.update_from_sf_data envNoFail [deletedL1] (sampleSf (some "L1")) =
      (SaveOutcome.err, [deletedL1]) ∧
    processLeads envNoFail [sampleSf (some "L1")] [deletedL1] = (0, 0, [deletedL1]) ∧
    deletedL1.is_deleted = true :=
  ⟨rfl, rfl, rfl⟩

/-- Claim C4 (amended): in the generic SalesforceRecord engine, whose
`get_by_sf_id` does not filter out soft-deleted rows, the upsert of a
record whose identifier matches an existing soft-deleted row clears
is_deleted back to false on that row: the record counts as updated, no
row is added or removed, and an active row with the identifier is
present afterwards.  (In the Lead engine the same situation instead
skips the record — see the counterexample.) -/
theorem c4_amended_generic_upsert_resurrects (env : DbEnv) (objId : Nat) (now : Int)
    (store : List SFRecord) (rec : RecData) (x : String) (ex : SFRecord)
    (hid : rec.id = some x) (hfind : SFRecord.get_by_sf_id store x = some ex)
    (hfail : x ∉ env.failIds) :
    ∃ store', sfProcessRecords env objId now [rec] store = Except.ok (0, 1, store') ∧
      store'.map SFRecord.sf_id = store.map SFRecord.sf_id ∧
      ∃ row ∈ store', row.sf_id = x ∧ row.is_deleted = false := by
  refine ⟨updateFirst (fun r => r.sf_id == x)
      (fun r => { r with data := rec, last_modified_date := some now, is_deleted := false })
      store, ?_, ?_, ?_⟩
  · simp [sfProcessRecords, hid, hfind, hfail]
  · exact updateFirst_map (fun r => r.sf_id == x)
      (fun r => { r with data := rec, last_modified_date := some now, is_deleted := false })
      SFRecord.sf_id (fun a _ => rfl) store
  · refine ⟨{ ex with data := rec, last_modified_date := some now, is_deleted := false },
      mem_updateFirst_of_find? hfind, ?_, rfl⟩
    have := List.find?_some hfind
    simpa using this

/-- Claim C4 witness: a store holding one soft-deleted row for R1 and a
batch containing R1 again. -/
theorem c4_amended_witness :
    ({ id := some "R1", payload := "new" } : RecData).id = some "R1" ∧
    SFRecord.get_by_sf_id [deletedR1] "R1" = some deletedR1 ∧
    "R1" ∉ envNoFail.failIds ∧
    ∃ store', sfProcessRecords envNoFail 7 50 [{ id := some "R1", payload := "new" }] [deletedR1] =
        Except.ok (0, 1, store') ∧
      store'.map SFRecord.sf_id = [deletedR1].map SFRecord.sf_id ∧
      ∃ row ∈ store', row.sf_id = "R1" ∧ row.is_deleted = false :=
  ⟨rfl, rfl, by decide,
    c4_amended_generic_upsert_resurrects envNoFail 7 50 [deletedR1]
      { id := some "R1", payload := "new" } "R1" deletedR1 rfl rfl (by decide)⟩

/-- Claim C5: an incremental pass with no prior completed Sync Log
entry behaves exactly like a full pass from the same state: the same
result is returned (so the fallback is not an error) and the resulting
lead store is identical. -/
theorem c5_incremental_without_baseline_equals_full (env : DbEnv)
    (fA : Except String (List SfData)) (fS : Int → Except String (List SfData))
    (s : EngineState) (h : get_latest_successful_sync s.logs "Lead" = none) :
    (sync_leads env ⟨"incremental", fA, fS⟩ s).1 =
      (sync_leads env ⟨"full", fA, fS⟩ s).1 ∧
    (sync_leads env ⟨"incremental", fA, fS⟩ s).2.leads =
      (sync_leads env ⟨"full", fA, fS⟩ s).2.leads := by
  have hl2 : get_latest_successful_sync
      (s.logs ++ [startedLog "incremental" s.nextId s.time]) "Lead" = none := by
    rw [latest_append_non_completed _ _ _ (by simp [startedLog])]
    exact h
  have hbodyI : sync_body env ⟨"incremental", fA, fS⟩
      (s.logs ++ [startedLog "incremental" s.nextId s.time]) s.leads =
      perform_full_sync env fA s.leads := by
    unfold sync_body
    rw [if_neg (show ¬("incremental" : String) = "full" by decide)]
    unfold perform_incremental_sync
    rw [hl2]
  have hbodyF : sync_body env ⟨"full", fA, fS⟩
      (s.logs ++ [startedLog "full" s.nextId s.time]) s.leads =
      perform_full_sync env fA s.leads := by
    unfold sync_body
    rw [if_pos rfl]
  unfold sync_leads
  simp only [hbodyI, hbodyF]
  cases hp : perform_full_sync env fA s.leads with
  | ok p =>
    obtain ⟨c, leads'⟩ := p
    exact ⟨rfl, rfl⟩
  | error e => exact ⟨rfl, rfl⟩

/-- Claim C5 witness: an incremental trigger on a fresh database with a
one-record remote set. -/
theorem c5_incremental_without_baseline_witness :
    get_latest_successful_sync initialState.logs "Lead" = none ∧
    ((sync_leads envNoFail ⟨"incremental", Except.ok [sampleSf (some "L1")],
        fun _ => Except.ok []⟩ initialState).1 =
      (sync_leads envNoFail ⟨"full", Except.ok [sampleSf (some "L1")],
        fun _ => Except.ok []⟩ initialState).1 ∧
    (sync_leads envNoFail ⟨"incremental", Except.ok [sampleSf (some "L1")],
        fun _ => Except.ok []⟩ initialState).2.leads =
      (sync_leads envNoFail ⟨"full", Except.ok [sampleSf (some "L1")],
        fun _ => Except.ok []⟩ initialState).2.leads) :=
  ⟨rfl, c5_incremental_without_baseline_equals_full envNoFail
    (Except.ok [sampleSf (some "L1")]) (fun _ => Except.ok []) initialState rfl⟩

/-- Claim C3 (amended): in the lead engine, an error raised while
reconciling one fetched record is caught and the record skipped without
aborting the pass: the pass terminates with status 'completed', the
processed counter equals the number of fetched records, and
created + updated undercounts processed by exactly the number of
records that fail (missing 'Id' key or store write failure), over a
store without soft-deleted rows.  (As stated over every pass the claim
fails: the generic SalesforceRecord engine catches nothing — see the
counterexample.) -/
theorem c3_amended_lead_per_record_errors_skipped (env : DbEnv) (recs : List SfData)
    (fS : Int → Except String (List SfData)) (s : EngineState)
    (hact : activeStore s.leads) :
    ∃ cnt, (sync_leads env ⟨"full", Except.ok recs, fS⟩ s).1 = Except.ok cnt ∧
      cnt.processed = recs.length ∧
      cnt.created + cnt.updated + recs.countP (leadFailsS env) = recs.length ∧
      ∃ l ∈ (sync_leads env ⟨"full", Except.ok recs, fS⟩ s).2.logs,
        l.id = s.nextId ∧ l.status = "completed" := by
  obtain ⟨h1, _, h3⟩ := sync_leads_full_ok env recs fS s
  refine ⟨_, h1, rfl, ?_, ?_⟩
  · exact processLeads_count env recs s.leads hact
  · refine ⟨completedLog (startedLog "full" s.nextId s.time) (s.time + 1)
      { processed := recs.length
        created := (processLeads env recs s.leads).1
        updated := (processLeads env recs s.leads).2.1
        deleted := 0 }, ?_, rfl, rfl⟩
    rw [h3]
    unfold updateLog
    exact List.mem_map.mpr ⟨startedLog "full" s.nextId s.time,
      List.mem_append_right _ (List.mem_singleton.mpr rfl), by simp [startedLog]⟩

/-- Claim C3 (counterexample): in the generic SalesforceRecord engine
the per-record loop catches nothing — a store write failure on record
L4 aborts the whole pass with the error instead of skipping the
record. -/
theorem c3_counterexample_generic_engine_aborts :
    sf_perform_full_sync envFailL4 7 50 [{ id := some "L4", payload := "p" }] [] =
      Except.error "save failed: L4" ∧
    perform_full_sync envFailL4 (Except.ok [sampleSf (some "L4")]) [] =
      Except.ok ({ processed := 1, created := 0, updated := 0, deleted := 0 }, []) :=
  ⟨rfl, rfl⟩

/-- Claim C3 witness: one fetched record whose store write raises; the
lead pass still completes, processed is 1, created + updated is 0. -/
theorem c3_amended_witness :
    activeStore initialState.leads ∧
    ∃ cnt, (sync_leads envFailL4 ⟨"full", Except.ok [sampleSf (some "L4")],
        fun _ => Except.ok []⟩ initialState).1 = Except.ok cnt ∧
      cnt.processed = [sampleSf (some "L4")].length ∧
      cnt.created + cnt.updated + [sampleSf (some "L4")].countP (leadFailsS envFailL4) =
        [sampleSf (some "L4")].length ∧
      ∃ l ∈ (sync_leads envFailL4 ⟨"full", Except.ok [sampleSf (some "L4")],
          fun _ => Except.ok []⟩ initialState).2.logs,
        l.id = initialState.nextId ∧ l.status = "completed" :=
  ⟨fun l hl => absurd hl (List.not_mem_nil l),
    c3_amended_lead_per_record_errors_skipped envFailL4 [sampleSf (some "L4")]
      (fun _ => Except.ok []) initialState (fun l hl => absurd hl (List.not_mem_nil l))⟩

/-- Claim C2 (amended): in the lead engine, an incremental pass with a
completed baseline entry uses the watermark start_time − 5 minutes as
the fetch lower bound; a record modified 2 minutes before that start
time is therefore in the fetched set and — given a valid identifier and
a working store write — is upserted: the pass completes and an active
row with the record's identifier is in the store.  (As stated over
every incremental pass the claim fails: the generic engine bounds its
fetch by the object's last_sync_time with no 5-minute buffer — see the
counterexample.) -/
theorem c2_amended_lead_watermark_buffer (env : DbEnv)
    (fA : Except String (List SfData)) (remote : List (SfData × Int)) (s : EngineState)
    (ls : SyncLog) (r : SfData) (x : String)
    (hlast : get_latest_successful_sync s.logs "Lead" = some ls)
    (hmemr : (r, ls.start_time - 2) ∈ remote)
    (hid : r.id = some x) (hx : x ≠ "") (hfail : x ∉ env.failIds)
    (hact : activeStore s.leads) :
    leadWatermark ls = ls.start_time - 5 ∧
    r ∈ (remote.filter (fun p => decide (leadWatermark ls ≤ p.2))).map Prod.fst ∧
    (∃ row ∈ (sync_leads env ⟨"incremental", fA, fetchSinceOfRemote remote⟩ s).2.leads,
      row.sf_id = x ∧ row.is_deleted = false) ∧
    ∃ cnt, (sync_leads env ⟨"incremental", fA, fetchSinceOfRemote remote⟩ s).1 =
      Except.ok cnt := by
  have hrmem : r ∈ (remote.filter (fun p => decide (leadWatermark ls ≤ p.2))).map Prod.fst := by
    refine List.mem_map.mpr ⟨(r, ls.start_time - 2), List.mem_filter.mpr ⟨hmemr, ?_⟩, rfl⟩
    simp only [leadWatermark, decide_eq_true_eq]
    omega
  obtain ⟨hleads, hok⟩ := sync_leads_inc_ok env fA remote s ls hlast
  refine ⟨rfl, hrmem, ?_, hok⟩
  rw [hleads]
  exact processLeads_presence env _ s.leads hact r hrmem x hid hx hfail

/-- Claim C2 (counterexample): the generic engine's incremental pass,
with a completed baseline whose start time is 100 and the object's
last_sync_time also 100, passes 100 — not 95 — as the fetch lower
bound: a record modified at 98 (two minutes before the baseline start)
is not fetched and not upserted, and the store stays empty. -/
theorem c2_counterexample_generic_engine_skips_buffer :
    sf_perform_incremental_sync envNoFail 7 200 (some baselineLog) (some 100)
        (sfRemoteUpdatedSince [({ id := some "L1", payload := "p" }, 98)])
        (fun _ _ => []) [] [] =
      Except.ok ({ processed := 0, created := 0, updated := 0, deleted := 0 }, []) ∧
    (100 : Int) ≠ baselineLog.start_time - 5 ∧
    sfRemoteUpdatedSince [({ id := some "L1", payload := "p" }, 98)] 100 = [] :=
  ⟨rfl, by decide, rfl⟩

/-- Claim C2 witness: the baseline entry has start time 100, the remote
holds one record modified at 98; it is fetched and upserted. -/
theorem c2_amended_witness :
    get_latest_successful_sync baselineState.logs "Lead" = some baselineLog ∧
    (sampleSf (some "L1"), baselineLog.start_time - 2) ∈
      [(sampleSf (some "L1"), (98 : Int))] ∧
    (∃ row ∈ (sync_leads envNoFail ⟨"incremental", Except.ok [],
        fetchSinceOfRemote [(sampleSf (some "L1"), (98 : Int))]⟩ baselineState).2.leads,
      row.sf_id = "L1" ∧ row.is_deleted = false) :=
  ⟨rfl, by decide,
    (c2_amended_lead_watermark_buffer envNoFail (Except.ok [])
      [(sampleSf (some "L1"), (98 : Int))] baselineState baselineLog
      (sampleSf (some "L1")) "L1" rfl (by decide) rfl (by decide) (by decide)
      (fun l hl => absurd hl (List.not_mem_nil l))).2.2.1⟩

/-- Claim C6: for an unchanged remote record set of N well-identified,
pairwise-distinct records whose store writes succeed, running a full
pass twice in succession from a store without soft-deleted rows and
without duplicate identifiers yields created = 0 and updated = N on the
second pass — every record resolves to the found-therefore-update
branch — and the lead store is unchanged by the second pass. -/
theorem c6_full_sync_idempotent_second_run (env : DbEnv) (recs : List SfData)
    (fS : Int → Except String (List SfData)) (s : EngineState)
    (hact : activeStore s.leads) (hnd : (s.leads.map Lead.sf_id).Nodup)
    (hgood : ∀ sf ∈ recs, ∃ x, sf.id = some x ∧ x ≠ "" ∧ x ∉ env.failIds)
    (hndr : (recIds recs).Nodup) :
    (sync_leads env ⟨"full", Except.ok recs, fS⟩
        ((sync_leads env ⟨"full", Except.ok recs, fS⟩ s).2)).1 =
      Except.ok
        { processed := recs.length, created := 0, updated := recs.length, deleted := 0 } ∧
    (sync_leads env ⟨"full", Except.ok recs, fS⟩
        ((sync_leads env ⟨"full", Except.ok recs, fS⟩ s).2)).2.leads =
      (sync_leads env ⟨"full", Except.ok recs, fS⟩ s).2.leads := by
  obtain ⟨hA1, hA2, _⟩ := sync_leads_full_ok env recs fS s
  have hact1 : activeStore (sync_leads env ⟨"full", Except.ok recs, fS⟩ s).2.leads := by
    rw [hA2]; exact processLeads_active env recs s.leads hact
  have hnd1 : ((sync_leads env ⟨"full", Except.ok recs, fS⟩ s).2.leads.map Lead.sf_id).Nodup := by
    rw [hA2]; exact processLeads_ids_nodup env recs s.leads hnd
  have hfix : ∀ sf ∈ recs, ∃ x, sf.id = some x ∧ x ≠ "" ∧ x ∉ env.failIds ∧
      ∃ row ∈ (sync_leads env ⟨"full", Except.ok recs, fS⟩ s).2.leads,
        row.sf_id = x ∧ Lead.applyFields env row sf = row := by
    intro sf hsf
    obtain ⟨x, hid, hx, hmem⟩ := hgood sf hsf
    obtain ⟨row, hrmem, hrx, hrfix⟩ :=
      processLeads_fix_establish env recs s.leads hact hndr sf hsf x hid hx hmem
    exact ⟨x, hid, hx, hmem, row, by rw [hA2]; exact hrmem, hrx, hrfix⟩
  have hp2 : processLeads env recs (sync_leads env ⟨"full", Except.ok recs, fS⟩ s).2.leads =
      (0, recs.length, (sync_leads env ⟨"full", Except.ok recs, fS⟩ s).2.leads) :=
    processLeads_fixpoint env recs _ hnd1 hfix
  obtain ⟨hB1, hB2, _⟩ :=
    sync_leads_full_ok env recs fS (sync_leads env ⟨"full", Except.ok recs, fS⟩ s).2
  constructor
  · rw [hB1, hp2]
  · rw [hB2, hp2]

/-- Claim C6 witness: one remote record L1, a fresh database: the
second full pass yields created = 0, updated = 1 and an unchanged
store. -/
theorem c6_full_sync_idempotent_witness :
    activeStore initialState.leads ∧
    (initialState.leads.map Lead.sf_id).Nodup ∧
    (recIds [sampleSf (some "L1")]).Nodup ∧
    ((sync_leads envNoFail ⟨"full", Except.ok [sampleSf (some "L1")], fun _ => Except.ok []⟩
        ((sync_leads envNoFail ⟨"full", Except.ok [sampleSf (some "L1")],
          fun _ => Except.ok []⟩ initialState).2)).1 =
      Except.ok
        { processed := [sampleSf (some "L1")].length, created := 0,
          updated := [sampleSf (some "L1")].length, deleted := 0 } ∧
    (sync_leads envNoFail ⟨"full", Except.ok [sampleSf (some "L1")], fun _ => Except.ok []⟩
        ((sync_leads envNoFail ⟨"full", Except.ok [sampleSf (some "L1")],
          fun _ => Except.ok []⟩ initialState).2)).2.leads =
      (sync_leads envNoFail ⟨"full", Except.ok [sampleSf (some "L1")],
        fun _ => Except.ok []⟩ initialState).2.leads) :=
  ⟨fun l hl => absurd hl (List.not_mem_nil l), by decide, by decide,
    c6_full_sync_idempotent_second_run envNoFail [sampleSf (some "L1")]
      (fun _ => Except.ok []) initialState
      (fun l hl => absurd hl (List.not_mem_nil l)) (by decide)
      (by
        intro sf hsf
        rw [List.mem_singleton] at hsf
        subst hsf
        exact ⟨"L1", rfl, by decide, by decide⟩)
      (by decide)⟩
